import Mathlib

/-!
Verification development for the FireRed ROM-hack randomizer scripts
(`randomizer/randomizer.py` and the older standalone `randomizer.py`).

The scripts are line-oriented text rewriters.  We embed them shallowly:

* A file's content is a list of lines; a line is a `List Char`.
* The regex `\bITEM_\w+\b` (and the `SPECIES_`/`ABILITY_` variants) over a
  line is modelled by grouping the line into maximal runs of word /
  non-word characters (`chunks`): because `\w+` tokens are exactly the
  maximal word runs, the regex matches precisely those maximal word runs
  that start with the literal prefix and extend it by at least one word
  character, and `re.sub` rewrites each such run in place, leaving every
  other character of the line untouched.
* Python's ambient random source (`random.choice`) is modelled by an
  oracle `rng : Nat → Nat` together with a counter that each `choice`
  call advances; `random.shuffle` is modelled by quantifying over an
  arbitrary permutation of the shuffled list.
* Python dicts that the scripts build by insertion are modelled by
  association lists (`alook` / `aset`), and a file that may be missing on
  disk by `Option` (with `Except` where an exception would propagate).
-/

namespace Randomizer

abbrev Sym := List Char
abbrev Line := List Char
abbrev FileC := List Line

/-- Python's `\w` on the ASCII text these scripts process: letters,
digits and underscore. -/
def isWordChar (c : Char) : Bool := c.isAlphanum || c == '_'

/-- One step of grouping a line into maximal runs of characters that
agree on `isWordChar`. -/
def chunkStep (c : Char) (acc : List (List Char)) : List (List Char) :=
  match acc with
  | [] => [[c]]
  | g :: gs =>
    match g with
    | [] => [c] :: g :: gs
    | d :: _ => if isWordChar c == isWordChar d then (c :: g) :: gs else [c] :: g :: gs

/-- Group a line into the maximal runs of word / non-word characters;
the word runs among them are exactly the `\w+` tokens a Python regex
scan visits. -/
def chunks (l : List Char) : List (List Char) := l.foldr chunkStep []

/-- Python `tok in s` substring test. -/
def containsTok (tok : List Char) : List Char → Bool
  | [] => tok.isEmpty
  | c :: cs => tok.isPrefixOf (c :: cs) || containsTok tok cs

/-- Stateful map over a list, threading a state left to right: the shape
shared by every rewriting pass of the scripts (the state is the random
counter or the mutable item map). -/
def mapSt {σ α β : Type} (f : σ → α → β × σ) : σ → List α → List β × σ
  | st, [] => ([], st)
  | st, a :: as =>
    let p := f st a
    let q := mapSt f p.2 as
    (p.1 :: q.1, q.2)

/-- `re.sub` over the chunk list of a line: each chunk recognised by
`isM` is rewritten by the (stateful) replacer, every other chunk is kept. -/
def subChunksSt {σ : Type} (isM : List Char → Bool) (f : σ → List Char → List Char × σ)
    (st : σ) (l : Line) : List (List Char) × σ :=
  mapSt (fun st g => if isM g then f st g else (g, st)) st (chunks l)

/-- `re.sub` over a line, producing the rewritten line. -/
def subSt {σ : Type} (isM : List Char → Bool) (f : σ → List Char → List Char × σ)
    (st : σ) (l : Line) : Line × σ :=
  let q := subChunksSt isM f st l
  (q.1.flatten, q.2)

/-- Python dict lookup on an association list (first binding wins). -/
def alook {β : Type} (s : Sym) : List (Sym × β) → Option β
  | [] => none
  | p :: m => if p.1 = s then some p.2 else alook s m

/-- Python dict value update on an association list (first binding wins). -/
def aset {β : Type} (s : Sym) (v : β) : List (Sym × β) → List (Sym × β)
  | [] => []
  | p :: m => if p.1 = s then (s, v) :: m else p :: aset s v m

/-! ## Item shuffle (`randomizer/randomizer.py`, item phase) -/

/-- The literal prefix of the item regex `\bITEM_\w+\b`. -/
def itemTok : List Char := ("ITEM_").data

/-- A chunk is an item match when it is a word run that starts with
`ITEM_` and continues with at least one further word character (the
`\w+` of the pattern, with the word boundaries given by maximality). -/
def isItemMatch (g : List Char) : Bool :=
  itemTok.isPrefixOf g && decide (itemTok.length < g.length) && g.all isWordChar

/-- `FORBIDDEN_ITEM_COMMANDS` from the configuration block. -/
def FORBIDDEN_ITEM_COMMANDS : List (List Char) := [("addhiddenitem").data]

/-- The gather loop's per-line guard:
`any(cmd in line.lower() for cmd in forbidden_lower)`. -/
def forbidden_line (l : Line) : Bool :=
  (FORBIDDEN_ITEM_COMMANDS.map (fun cmd => cmd.map Char.toLower)).any
    (fun cmd => containsTok cmd (l.map Char.toLower))

/-- The `ITEM_` occurrences of a line, in scan order
(`item_pattern.finditer(line)`). -/
def item_matches (l : Line) : List Sym := (chunks l).filter isItemMatch

/-- One line of the gather loop: skip the line if a forbidden command
occurs in it, otherwise collect every `ITEM_` match that lies in the
regular item pool. -/
def gather_line (pool : List Sym) (l : Line) : List Sym :=
  if forbidden_line l then [] else (item_matches l).filter (fun s => decide (s ∈ pool))

/-- The gather loop over one file. -/
def gather_file (pool : List Sym) (lines : FileC) : List Sym :=
  (lines.map (gather_line pool)).flatten

/-- `regular_locations`: the gather loop over all processed item files. -/
def gather_run (pool : List Sym) (files : List FileC) : List Sym :=
  (files.map (gather_file pool)).flatten

/-- The `{original: [shuffled...]}` map of the item shuffle. -/
abbrev ItemMap := List (Sym × List Sym)

/-- `if original_item not in item_map: item_map[original_item] = []` then
`item_map[original_item].append(v)`. -/
def mapInsertAppend (m : ItemMap) (s v : Sym) : ItemMap :=
  match alook s m with
  | some vs => aset s (vs ++ [v]) m
  | none => m ++ [(s, [v])]

/-- Step 3 of the item shuffle: zip the collected occurrences against the
shuffled pool and queue each shuffled value under its original symbol. -/
def build_item_map (orig shuf : List Sym) : ItemMap :=
  (orig.zip shuf).foldl (fun m p => mapInsertAppend m p.1 p.2) []

/-- `line_replacer` of `apply_item_shuffle`: replace the occurrence with
the front of its symbol's queue when the symbol is a key whose queue is
non-empty (`pop(0)`), otherwise leave the occurrence unchanged. -/
def line_replacer (m : ItemMap) (s : Sym) : Sym × ItemMap :=
  match alook s m with
  | some (v :: rest) => (v, aset s rest m)
  | _ => (s, m)

/-- `apply_item_shuffle` on one file content: rewrite every line with
`re.sub(r'\bITEM_\w+\b', line_replacer, line)`, threading the mutated map. -/
def apply_item_shuffle (m : ItemMap) (lines : FileC) : FileC × ItemMap :=
  mapSt (fun m l => subSt isItemMatch line_replacer m l) m lines

/-- The item-shuffle application loop over all processed item files. -/
def apply_item_shuffle_run (m : ItemMap) (files : List FileC) : List FileC × ItemMap :=
  mapSt (fun m f => apply_item_shuffle m f) m files

/-- All `ITEM_` matches the application phase visits, flattened in
file-then-line-then-column order. -/
def all_item_matches (files : List FileC) : List Sym :=
  (files.map (fun f => (f.map item_matches).flatten)).flatten

/-- The state effect of folding `line_replacer` over a flat list of
occurrences. -/
def foldStep (m : ItemMap) (L : List Sym) : ItemMap :=
  L.foldl (fun m s => (line_replacer m s).2) m

/-- The replacement values written (popped) when the flat occurrence list
`L` is processed. -/
def writesFlat : ItemMap → List Sym → List Sym
  | _, [] => []
  | m, s :: L =>
    match alook s m with
    | some (v :: rest) => v :: writesFlat (aset s rest m) L
    | some [] => writesFlat m L
    | none => writesFlat m L

/-- The values the occurrences of symbol `s` in the flat occurrence list
receive (replacement or passthrough), in order. -/
def outputsAt (s : Sym) : ItemMap → List Sym → List Sym
  | _, [] => []
  | m, t :: L =>
    if t = s then (line_replacer m t).1 :: outputsAt s (line_replacer m t).2 L
    else outputsAt s (line_replacer m t).2 L

/-- Occurrence count of a symbol in a flat occurrence list. -/
def countOcc (s : Sym) (L : List Sym) : Nat := L.countP (fun t => decide (t = s))

/-- All values queued in an item map, in entry order. -/
def joinVals (m : ItemMap) : List Sym := (m.map Prod.snd).flatten

/-- Length of the queue stored under `s` (0 when `s` is not a key). -/
def lenOf (m : ItemMap) (s : Sym) : Nat := ((alook s m).getD []).length

/-- Distinctness of the keys of an association list (true of every dict
the scripts build). -/
def nodupKeys {β : Type} (m : List (Sym × β)) : Prop := (m.map Prod.fst).Nodup

/-- The generic accumulator form of the `item_map` construction loop. -/
def foldIns (m : ItemMap) (pairs : List (Sym × Sym)) : ItemMap :=
  pairs.foldl (fun m p => mapInsertAppend m p.1 p.2) m

/-! ## Species and ability randomization -/

/-- The literal prefix of the species regex `\bSPECIES_\w+\b`. -/
def speciesTok : List Char := ("SPECIES_").data

/-- The literal prefix of the ability regex `\bABILITY_\w+\b`. -/
def abilityTok : List Char := ("ABILITY_").data

def isSpeciesMatch (g : List Char) : Bool :=
  speciesTok.isPrefixOf g && decide (speciesTok.length < g.length) && g.all isWordChar

def isAbilityMatch (g : List Char) : Bool :=
  abilityTok.isPrefixOf g && decide (abilityTok.length < g.length) && g.all isWordChar

/-- `PROTECTED_SPECIES` from the configuration block (both scripts). -/
def PROTECTED_SPECIES : List Sym := [("SPECIES_NONE").data, ("SPECIES_EGG").data]

/-- `ORIGINAL_STARTERS` from the configuration block (both scripts). -/
def ORIGINAL_STARTERS : List Sym :=
  [("SPECIES_BULBASAUR").data, ("SPECIES_CHARMANDER").data, ("SPECIES_SQUIRTLE").data]

/-- `PROTECTED_ABILITIES` from the configuration block (both scripts). -/
def PROTECTED_ABILITIES : List Sym :=
  [("ABILITY_NONE").data, ("ABILITY_WONDER_GUARD").data]

/-- `BST_SIMILARITY_RANGE` from the configuration block. -/
def BST_SIMILARITY_RANGE : Int := 75

/-- `random.choice(pool)` with the random source modelled as the oracle
value at the current counter (only ever called on a non-empty pool). -/
def choiceAt (rng : Nat → Nat) (k : Nat) (pool : List Sym) : Sym :=
  pool.getD (rng k % pool.length) []

/-- Python truthiness of `bst_swap_pools` (`None` and the empty dict are
both falsy). -/
def optTruthy {α : Type} : Option (List α) → Bool
  | none => false
  | some l => !l.isEmpty

/-- `replacement_logic` of `randomize_species_in_file`
(`randomizer/randomizer.py`, lines 157-165), with the random counter
threaded explicitly: pinned starters first, then protected passthrough,
then the similarity pool (`if bst_swap_pools:`), else the flat fallback
pool. -/
def species_replacement_logic (rng : Nat → Nat) (starter_map : List (Sym × Sym))
    (bst_swap_pools : Option (List (Sym × List Sym))) (fallback_pool : List Sym)
    (k : Nat) (s : Sym) : Sym × Nat :=
  match alook s starter_map with
  | some v => (v, k)
  | none =>
    if s ∈ PROTECTED_SPECIES then (s, k)
    else if optTruthy bst_swap_pools then
      match alook s (bst_swap_pools.getD []) with
      | some p => if p.isEmpty then (s, k) else (choiceAt rng k p, k + 1)
      | none => (s, k)
    else if fallback_pool.isEmpty then (s, k) else (choiceAt rng k fallback_pool, k + 1)

/-- `replacement_logic` of the standalone script (`randomizer.py`,
lines 60-64): pinned starters, protected passthrough, otherwise
`choice(species_list)`. -/
def species_replacement_logic_v1 (rng : Nat → Nat) (species_list : List Sym)
    (starter_map : List (Sym × Sym)) (k : Nat) (s : Sym) : Sym × Nat :=
  match alook s starter_map with
  | some v => (v, k)
  | none =>
    if s ∈ PROTECTED_SPECIES then (s, k)
    else (choiceAt rng k species_list, k + 1)

/-- `replacement_logic` of `randomize_abilities` (both scripts):
protected passthrough, otherwise `choice(ability_pool)`. -/
def ability_replacement_logic (rng : Nat → Nat) (ability_pool : List Sym)
    (k : Nat) (s : Sym) : Sym × Nat :=
  if s ∈ PROTECTED_ABILITIES then (s, k) else (choiceAt rng k ability_pool, k + 1)

def START_MARKER : List Char := ("// RANDOMIZER_START").data
def END_MARKER : List Char := ("// RANDOMIZER_END").data

def hasStartMarker (l : Line) : Bool := containsTok START_MARKER l
def hasEndMarker (l : Line) : Bool := containsTok END_MARKER l

/-- Rewrite one line with the species pattern and a stateful resolver. -/
def subSpLine {σ : Type} (res : σ → Sym → Sym × σ) (st : σ) (l : Line) : Line × σ :=
  subSt isSpeciesMatch res st l

/-- The marked-sections loop of `randomize_species_in_file`: the flag is
toggled by the marker lines first, then the line is substituted exactly
when the flag is on and the line is not a start-marker line. -/
def region_pass {σ : Type} (sub : σ → Line → Line × σ) :
    Bool → σ → List Line → List Line × σ
  | _, st, [] => ([], st)
  | b, st, l :: ls =>
    let b2 := if hasStartMarker l then true else if hasEndMarker l then false else b
    let p := if b2 && !(hasStartMarker l) then sub st l else (l, st)
    let q := region_pass sub b2 p.2 ls
    (p.1 :: q.1, q.2)

/-- The content transform of `randomize_species_in_file`: if the content
contains a region-start marker, only the marked sections are rewritten,
otherwise the entire content is rewritten.  (Matches cannot span a line
break, so substituting the whole content equals substituting line by
line.) -/
def randomize_species_content {σ : Type} (sub : σ → Line → Line × σ) (st : σ)
    (lines : List Line) : List Line × σ :=
  if lines.any hasStartMarker then region_pass sub false st lines
  else mapSt sub st lines

/-- `randomize_species_in_file` at the file level: a missing file
(`FileNotFoundError`) is caught, reported and skipped. -/
def randomize_species_in_file {σ : Type} (sub : σ → Line → Line × σ) (st : σ)
    (file : Option FileC) : Option FileC × σ :=
  match file with
  | none => (none, st)
  | some lines =>
    let p := randomize_species_content sub st lines
    (some p.1, p.2)

/-- The species loop of `__main__`: every discovered file is processed
with the one starter map and the one pool table fixed for the run. -/
def randomize_species_run {σ : Type} (sub : σ → Line → Line × σ) (st : σ)
    (files : List (Option FileC)) : List (Option FileC) × σ :=
  mapSt (fun st f => randomize_species_in_file sub st f) st files

/-- The starter-map loop of `__main__` (`randomizer/randomizer.py`,
lines 284-287) over a list of pinned symbols:
`pool = bst_swap_pools.get(starter); if pool: choice(pool) else starter`. -/
def starter_map_go (rng : Nat → Nat) (pools : List (Sym × List Sym)) :
    List Sym → Nat → List (Sym × Sym) × Nat
  | [], k => ([], k)
  | s :: ss, k =>
    match alook s pools with
    | some p =>
      if p.isEmpty then
        let q := starter_map_go rng pools ss k
        ((s, s) :: q.1, q.2)
      else
        let q := starter_map_go rng pools ss (k + 1)
        ((s, choiceAt rng k p) :: q.1, q.2)
    | none =>
      let q := starter_map_go rng pools ss k
      ((s, s) :: q.1, q.2)

/-- `starter_map` as built once per run, before any file is processed. -/
def build_starter_map (rng : Nat → Nat) (pools : List (Sym × List Sym)) (k : Nat) :
    List (Sym × Sym) × Nat :=
  starter_map_go rng pools ORIGINAL_STARTERS k

/-- `randomize_abilities` content transform (whole file, no markers). -/
def randomize_abilities (rng : Nat → Nat) (ability_pool : List Sym) (k : Nat)
    (lines : FileC) : FileC × Nat :=
  mapSt (fun k l => subSt isAbilityMatch (ability_replacement_logic rng ability_pool) k l)
    k lines

/-- `randomize_abilities` at the file level: a missing file is caught,
reported and skipped. -/
def randomize_abilities_file (rng : Nat → Nat) (ability_pool : List Sym) (k : Nat)
    (file : Option FileC) : Option FileC × Nat :=
  match file with
  | none => (none, k)
  | some lines =>
    let p := randomize_abilities rng ability_pool k lines
    (some p.1, p.2)

/-- `build_bst_swap_pools`: for every entry of the BST map, the list of
all catalogued species whose BST lies within the tolerance window
(inclusive), in map order. -/
def build_bst_swap_pools (bst_map : List (Sym × Int)) (similarity_range : Int) :
    List (Sym × List Sym) :=
  bst_map.map (fun p =>
    (p.1, (bst_map.filter (fun q => decide (|p.2 - q.2| ≤ similarity_range))).map Prod.fst))

/-! ## Catalog loaders and the unguarded item gather loop -/

/-- `POOL_EXCLUSIONS` from the configuration block: the three fixed
entries, the interleaved `SPECIES_OLD_UNOWN_X` / `SPECIES_UNOWN_X` pairs
for X in B..Z (`ord('B') = 66`), and the two mark forms. -/
def POOL_EXCLUSIONS : List Sym :=
  [("SPECIES_NONE").data, ("SPECIES_EGG").data, ("SPECIES_UNOWN").data] ++
    ((List.range 25).map (fun i =>
      [("SPECIES_OLD_UNOWN_").data ++ [Char.ofNat (66 + i)],
       ("SPECIES_UNOWN_").data ++ [Char.ofNat (66 + i)]])).flatten ++
    [("SPECIES_UNOWN_EMARK").data, ("SPECIES_UNOWN_QMARK").data]

/-- The line pattern `#define (SPECIES_\w+)\s` (or the `ABILITY_`
variant), anchored at the line start by `.match`: the literal
`#define `, then a maximal word run extending the prefix, then a
whitespace character. -/
def parse_define (pre : List Char) (l : Line) : Option Sym :=
  if (("#define ").data).isPrefixOf l then
    let rest := l.drop (("#define ").data).length
    let name := rest.takeWhile isWordChar
    if pre.isPrefixOf name && decide (pre.length < name.length) &&
        (match rest.drop name.length with
         | c :: _ => c.isWhitespace
         | [] => false) then some name
    else none
  else none

/-- `get_all_species` of `randomizer/randomizer.py` (lines 140-153): a
missing `species.h` is caught (`FileNotFoundError`), reported and an
empty catalog returned. -/
def get_all_species (file : Option FileC) : List Sym :=
  match file with
  | none => []
  | some lines =>
    lines.filterMap (fun l =>
      match parse_define speciesTok l with
      | some n => if n ∈ POOL_EXCLUSIONS then none else some n
      | none => none)

/-- `get_all_abilities` of `randomizer/randomizer.py` (lines 186-198): a
missing `abilities.h` is caught, reported, and the (empty) list built so
far is returned. -/
def get_all_abilities (file : Option FileC) : List Sym :=
  match file with
  | none => []
  | some lines =>
    lines.filterMap (fun l =>
      match parse_define abilityTok l with
      | some n => if n ∈ PROTECTED_ABILITIES then none else some n
      | none => none)

/-- `get_all_species` of the standalone `randomizer.py` (lines 47-56):
`open(SPECIES_HEADER)` is not wrapped in any handler, so a missing
`species.h` raises `FileNotFoundError`, modelled as an `Except.error`
propagating out of the loader. -/
def get_all_species_v1 (file : Option FileC) : Except Unit (List Sym) :=
  match file with
  | none => Except.error ()
  | some lines =>
    Except.ok (lines.filterMap (fun l =>
      match parse_define speciesTok l with
      | some n => if n ∈ POOL_EXCLUSIONS then none else some n
      | none => none))

/-- The item gather loop of `__main__` (`randomizer/randomizer.py`,
lines 346-355): `open(file_path)` is not wrapped in any handler inside
the loop, so a missing file raises and aborts the item shuffle; present
files contribute their gathered occurrences in order. -/
def item_gather_loop (pool : List Sym) : List (Option FileC) → Except Unit (List Sym)
  | [] => Except.ok []
  | none :: _ => Except.error ()
  | some f :: rest => (item_gather_loop pool rest).map (fun r => gather_file pool f ++ r)

/-- `apply_item_shuffle` at the file level: a missing file is caught
(`except FileNotFoundError`), reported and skipped, the map unchanged. -/
def apply_item_shuffle_file (m : ItemMap) (file : Option FileC) : Option FileC × ItemMap :=
  match file with
  | none => (none, m)
  | some lines =>
    let p := apply_item_shuffle m lines
    (some p.1, p.2)

/-! ## Region-eligibility observers (specification side, for claim C6) -/

/-- The marker toggling applied by one line of the marked-sections loop. -/
def toggleFlag (b : Bool) (l : Line) : Bool :=
  if hasStartMarker l then true else if hasEndMarker l then false else b

/-- Whether a line is substituted, given the flag before it. -/
def eligibleLine (b : Bool) (l : Line) : Bool := toggleFlag b l && !(hasStartMarker l)

/-- The flag after a list of lines has been scanned. -/
def flagsAfter (b : Bool) (ls : List Line) : Bool := ls.foldl toggleFlag b

/-- Whether line `i` of the content is substituted by the
marked-sections loop started with flag `b`. -/
def eligibleAt (b : Bool) (lines : List Line) (i : Nat) : Bool :=
  match lines[i]? with
  | some l => eligibleLine (flagsAfter b (lines.take i)) l
  | none => false

/-! ## Lemmas about the region loop and the stateful substitution -/

/-- Relation between an input file slot and its processed output. -/
def optFileRel (R : Line → Line → Prop) : Option FileC → Option FileC → Prop
  | none, f2 => f2 = none
  | some lines, f2 => ∃ lines2, f2 = some lines2 ∧ List.Forall₂ R lines lines2

/-! ## Lemmas about the starter map -/

/-! ## Lemmas about the BST swap pools -/

theorem chunkStep_join (c : Char) (acc : List (List Char)) :
    (chunkStep c acc).flatten = c :: acc.flatten := by
  cases acc with
  | nil => rfl
  | cons g gs =>
    cases g with
    | nil => rfl
    | cons d g2 =>
      by_cases h : isWordChar c == isWordChar d
      · simp [chunkStep, h]
      · simp [chunkStep, h]

/-- Flattening the chunk decomposition recovers the line. -/
theorem chunks_join (l : List Char) : (chunks l).flatten = l := by
  induction l with
  | nil => rfl
  | cons c cs ih => simpa [chunks, chunkStep_join] using congrArg (c :: ·) ih

theorem alook_aset_ne {β : Type} (m : List (Sym × β)) (s t : Sym) (v : β) (h : t ≠ s) :
    alook t (aset s v m) = alook t m := by
  induction m with
  | nil => rfl
  | cons p m ih =>
    by_cases hp : p.1 = s
    · simp only [aset, if_pos hp, alook]
      rw [if_neg (fun hc => h hc.symm), if_neg (by rw [hp]; exact fun hc => h hc.symm)]
    · simp only [aset, if_neg hp, alook]
      by_cases hq : p.1 = t
      · rw [if_pos hq, if_pos hq]
      · rw [if_neg hq, if_neg hq, ih]

theorem alook_aset_eq {β : Type} (m : List (Sym × β)) (s : Sym) (v w : β)
    (h : alook s m = some w) : alook s (aset s v m) = some v := by
  induction m with
  | nil => simp [alook] at h
  | cons p m ih =>
    by_cases hp : p.1 = s
    · simp [aset, if_pos hp, alook]
    · simp only [alook, if_neg hp] at h
      simp only [aset, if_neg hp, alook, if_neg hp]
      exact ih h

theorem keys_aset {β : Type} (m : List (Sym × β)) (s : Sym) (v : β) :
    (aset s v m).map Prod.fst = m.map Prod.fst := by
  induction m with
  | nil => rfl
  | cons p m ih =>
    by_cases hp : p.1 = s
    · simp [aset, if_pos hp, hp]
    · simp [aset, if_neg hp, ih]

theorem alook_eq_none {β : Type} (m : List (Sym × β)) (s : Sym) :
    alook s m = none ↔ s ∉ m.map Prod.fst := by
  induction m with
  | nil => simp [alook]
  | cons p m ih =>
    by_cases hp : p.1 = s
    · simp only [alook, if_pos hp, List.map_cons, List.mem_cons]
      constructor
      · intro h; exact absurd h (by simp)
      · intro h; exact absurd (Or.inl hp.symm) h
    · simp only [alook, if_neg hp, List.map_cons, List.mem_cons, ih]
      constructor
      · intro h hc
        rcases hc with hc | hc
        · exact hp hc.symm
        · exact h hc
      · intro h hc
        exact h (Or.inr hc)

theorem alook_some_mem {β : Type} (m : List (Sym × β)) (s : Sym) (v : β)
    (h : alook s m = some v) : (s, v) ∈ m := by
  induction m with
  | nil => simp [alook] at h
  | cons p m ih =>
    by_cases hp : p.1 = s
    · simp only [alook, if_pos hp, Option.some.injEq] at h
      have hps : p = (s, v) := by
        cases p with
        | mk a b =>
          simp only at hp h
          rw [hp, h]
      exact hps ▸ List.mem_cons_self p m
    · simp only [alook, if_neg hp] at h
      exact List.mem_cons_of_mem _ (ih h)

theorem alook_nodup_mem {β : Type} (m : List (Sym × β)) (s : Sym) (v : β)
    (hnd : (m.map Prod.fst).Nodup) (h : (s, v) ∈ m) : alook s m = some v := by
  induction m with
  | nil => simp at h
  | cons p m ih =>
    simp only [List.map_cons, List.nodup_cons] at hnd
    rcases List.mem_cons.mp h with h | h
    · subst h; simp [alook]
    · have hp : p.1 ≠ s := by
        intro hc
        exact hnd.1 (hc ▸ (List.mem_map.mpr ⟨(s, v), h, rfl⟩))
      simp only [alook, if_neg hp]
      exact ih hnd.2 h

theorem countOcc_cons (s t : Sym) (L : List Sym) :
    countOcc s (t :: L) = countOcc s L + if t = s then 1 else 0 := by
  simp [countOcc, List.countP_cons]

theorem line_replacer_lookup_ne (m : ItemMap) (t s : Sym) (h : t ≠ s) :
    alook s (line_replacer m t).2 = alook s m := by
  unfold line_replacer
  cases hm : alook t m with
  | none => rfl
  | some vs =>
    cases vs with
    | nil => rfl
    | cons v rest => exact alook_aset_ne m t s rest (fun hc => h hc.symm)

/-- Per-symbol FIFO behaviour of `line_replacer` over a flat occurrence
list: the occurrences of `s` receive the symbol's queued values from the
front, in order, and once the queue is exhausted (or absent) they pass
through unchanged. -/
theorem outputsAt_eq (s : Sym) : ∀ (L : List Sym) (m : ItemMap),
    outputsAt s m L =
      ((alook s m).getD []).take (countOcc s L) ++
        List.replicate (countOcc s L - ((alook s m).getD []).length) s := by
  intro L
  induction L with
  | nil => intro m; simp [outputsAt, countOcc]
  | cons t L ih =>
    intro m
    by_cases hts : t = s
    · subst hts
      have hc : countOcc t (t :: L) = countOcc t L + 1 := by
        rw [countOcc_cons, if_pos rfl]
      cases hm : alook t m with
      | none =>
        have hstep : line_replacer m t = (t, m) := by
          unfold line_replacer; rw [hm]
        simp only [outputsAt, if_pos rfl, hstep, hm, hc, ih m, Option.getD_none,
          List.take_nil, List.length_nil, Nat.sub_zero, List.nil_append,
          List.replicate_succ, if_true, eq_self_iff_true]
      | some vs =>
        cases vs with
        | nil =>
          have hstep : line_replacer m t = (t, m) := by
            unfold line_replacer; rw [hm]
          simp only [outputsAt, if_pos rfl, hstep, hm, hc, ih m, Option.getD_some,
            List.take_nil, List.length_nil, Nat.sub_zero, List.nil_append,
            List.replicate_succ, if_true, eq_self_iff_true]
        | cons v rest =>
          have hstep : line_replacer m t = (v, aset t rest m) := by
            unfold line_replacer; rw [hm]
          have hlook : alook t (aset t rest m) = some rest :=
            alook_aset_eq m t rest (v :: rest) hm
          simp only [outputsAt, if_pos rfl, hstep, hm, hc, ih (aset t rest m), hlook,
            Option.getD_some, List.take_succ_cons, List.length_cons,
            Nat.succ_sub_succ, List.cons_append, if_true, eq_self_iff_true]
    · have hc : countOcc s (t :: L) = countOcc s L := by
        rw [countOcc_cons, if_neg hts, Nat.add_zero]
      have hlook : alook s (line_replacer m t).2 = alook s m :=
        line_replacer_lookup_ne m t s hts
      simp only [outputsAt, if_neg hts, hc, ih (line_replacer m t).2, hlook]

theorem foldStep_append (m : ItemMap) (L₁ L₂ : List Sym) :
    foldStep m (L₁ ++ L₂) = foldStep (foldStep m L₁) L₂ :=
  List.foldl_append _ _ _ _

/-- The state produced by rewriting one line is the fold of
`line_replacer` over that line's `ITEM_` matches. -/
theorem subChunksSt_state (m : ItemMap) (l : Line) :
    (subChunksSt isItemMatch line_replacer m l).2 = foldStep m (item_matches l) := by
  unfold subChunksSt item_matches
  generalize chunks l = cs
  induction cs generalizing m with
  | nil => simp [mapSt, foldStep]
  | cons c cs ih =>
    by_cases hc : isItemMatch c
    · simp only [mapSt, if_pos hc, List.filter_cons, hc, ite_true, foldStep,
        List.foldl_cons]
      exact ih (line_replacer m c).2
    · simp only [mapSt, if_neg hc, List.filter_cons, hc, ite_false]
      exact ih m

theorem apply_file_state (m : ItemMap) (lines : FileC) :
    (apply_item_shuffle m lines).2 = foldStep m ((lines.map item_matches).flatten) := by
  induction lines generalizing m with
  | nil => simp [apply_item_shuffle, mapSt, foldStep]
  | cons l ls ih =>
    simp only [apply_item_shuffle, mapSt, List.map_cons, List.flatten_cons,
      foldStep_append]
    have hline : (subSt isItemMatch line_replacer m l).2 = foldStep m (item_matches l) :=
      subChunksSt_state m l
    rw [hline]
    exact ih (foldStep m (item_matches l))

/-- The final item map of the application loop is the fold of
`line_replacer` over the flat list of all visited matches. -/
theorem apply_run_state (m : ItemMap) (files : List FileC) :
    (apply_item_shuffle_run m files).2 = foldStep m (all_item_matches files) := by
  induction files generalizing m with
  | nil => simp [apply_item_shuffle_run, mapSt, all_item_matches, foldStep]
  | cons f fs ih =>
    simp only [apply_item_shuffle_run, mapSt, all_item_matches, List.map_cons,
      List.flatten_cons, foldStep_append]
    rw [apply_file_state m f]
    exact ih (foldStep m ((f.map item_matches).flatten))

theorem alook_append_some {β : Type} (m₁ m₂ : List (Sym × β)) (s : Sym) (v : β)
    (h : alook s m₁ = some v) : alook s (m₁ ++ m₂) = some v := by
  induction m₁ with
  | nil => simp [alook] at h
  | cons p m ih =>
    by_cases hp : p.1 = s
    · simpa [alook, if_pos hp] using (by simpa [alook, if_pos hp] using h)
    · simp only [alook, if_neg hp] at h ⊢
      exact ih h

theorem alook_append_none {β : Type} (m₁ m₂ : List (Sym × β)) (s : Sym)
    (h : alook s m₁ = none) : alook s (m₁ ++ m₂) = alook s m₂ := by
  induction m₁ with
  | nil => rfl
  | cons p m ih =>
    by_cases hp : p.1 = s
    · simp [alook, if_pos hp] at h
    · simp only [alook, if_neg hp] at h ⊢
      exact ih h

theorem keys_line_replacer (m : ItemMap) (t : Sym) :
    (line_replacer m t).2.map Prod.fst = m.map Prod.fst := by
  unfold line_replacer
  cases hm : alook t m with
  | none => rfl
  | some vs =>
    cases vs with
    | nil => rfl
    | cons v rest => exact keys_aset m t rest

theorem keys_foldStep (L : List Sym) : ∀ m : ItemMap,
    (foldStep m L).map Prod.fst = m.map Prod.fst := by
  induction L with
  | nil => intro m; rfl
  | cons t L ih =>
    intro m
    simp only [foldStep, List.foldl_cons]
    rw [show (L.foldl (fun m s => (line_replacer m s).2) (line_replacer m t).2)
          = foldStep (line_replacer m t).2 L from rfl,
       ih (line_replacer m t).2, keys_line_replacer]

/-- After folding the replacer over a flat occurrence list, the queue of
each symbol has shrunk by exactly the number of its occurrences
(truncated at zero). -/
theorem foldStep_len (L : List Sym) : ∀ (m : ItemMap) (s : Sym),
    lenOf (foldStep m L) s = lenOf m s - countOcc s L := by
  induction L with
  | nil => intro m s; simp [foldStep, countOcc]
  | cons t L ih =>
    intro m s
    have hfold : foldStep m (t :: L) = foldStep (line_replacer m t).2 L := by
      simp [foldStep]
    rw [hfold, ih (line_replacer m t).2 s, countOcc_cons]
    by_cases hts : t = s
    · subst hts
      cases hm : alook t m with
      | none =>
        have hstep : (line_replacer m t).2 = m := by unfold line_replacer; rw [hm]
        rw [hstep]
        simp [lenOf, hm, Nat.zero_sub]
      | some vs =>
        cases vs with
        | nil =>
          have hstep : (line_replacer m t).2 = m := by unfold line_replacer; rw [hm]
          rw [hstep]
          simp [lenOf, hm, Nat.zero_sub]
        | cons v rest =>
          have hstep : (line_replacer m t).2 = aset t rest m := by
            unfold line_replacer; rw [hm]
          rw [hstep]
          have h1 : lenOf (aset t rest m) t = rest.length := by
            simp [lenOf, alook_aset_eq m t rest (v :: rest) hm]
          have h2 : lenOf m t = rest.length + 1 := by simp [lenOf, hm]
          rw [h1, h2, if_pos rfl]
          omega
    · have hlook : alook s (line_replacer m t).2 = alook s m :=
        line_replacer_lookup_ne m t s hts
      simp [lenOf, hlook, if_neg hts]

theorem joinVals_pop (m : ItemMap) (s v : Sym) (rest : List Sym)
    (h : alook s m = some (v :: rest)) :
    List.Perm (joinVals m) (v :: joinVals (aset s rest m)) := by
  induction m with
  | nil => simp [alook] at h
  | cons p m ih =>
    by_cases hp : p.1 = s
    · simp only [alook, if_pos hp, Option.some.injEq] at h
      simp only [aset, if_pos hp, joinVals, List.map_cons, List.flatten_cons]
      rw [h]
      exact List.Perm.refl _
    · simp only [alook, if_neg hp] at h
      simp only [aset, if_neg hp, joinVals, List.map_cons, List.flatten_cons]
      have := (List.Perm.append_left p.2 (ih h))
      exact this.trans (List.perm_middle.symm).symm

/-- When every queue is no longer than the number of occurrences of its
key, the written (popped) values are a permutation of all queued values:
every queued value is consumed exactly once. -/
theorem writesFlat_perm (L : List Sym) : ∀ m : ItemMap, nodupKeys m →
    (∀ s, lenOf m s ≤ countOcc s L) → List.Perm (writesFlat m L) (joinVals m) := by
  induction L with
  | nil =>
    intro m hnd hlen
    have hempty : ∀ p ∈ m, Prod.snd p = ([] : List Sym) := by
      intro p hp
      have hlook : alook p.1 m = some p.2 :=
        alook_nodup_mem m p.1 p.2 hnd (by cases p; exact hp)
      have := hlen p.1
      simp only [countOcc, List.countP_nil, Nat.le_zero, lenOf, hlook,
        Option.getD_some, List.length_eq_zero] at this
      exact this
    have : joinVals m = [] := by
      simp only [joinVals, List.flatten_eq_nil_iff]
      intro x hx
      rcases List.mem_map.mp hx with ⟨p, hp, hpx⟩
      rw [← hpx]; exact hempty p hp
    rw [this]
    simp [writesFlat]
  | cons t L ih =>
    intro m hnd hlen
    cases hm : alook t m with
    | none =>
      have hw : writesFlat m (t :: L) = writesFlat m L := by
        simp [writesFlat, hm]
      rw [hw]
      refine ih m hnd (fun s => ?_)
      by_cases hts : t = s
      · subst hts; simp [lenOf, hm]
      · have := hlen s
        rwa [countOcc_cons, if_neg hts, Nat.add_zero] at this
    | some vs =>
      cases vs with
      | nil =>
        have hw : writesFlat m (t :: L) = writesFlat m L := by
          simp [writesFlat, hm]
        rw [hw]
        refine ih m hnd (fun s => ?_)
        by_cases hts : t = s
        · subst hts; simp [lenOf, hm]
        · have := hlen s
          rwa [countOcc_cons, if_neg hts, Nat.add_zero] at this
      | cons v rest =>
        have hw : writesFlat m (t :: L) = v :: writesFlat (aset t rest m) L := by
          simp [writesFlat, hm]
        rw [hw]
        have hnd2 : nodupKeys (aset t rest m) := by
          unfold nodupKeys
          rw [keys_aset]
          exact hnd
        have hlen2 : ∀ s, lenOf (aset t rest m) s ≤ countOcc s L := by
          intro s
          by_cases hts : t = s
          · subst hts
            have h1 : lenOf (aset t rest m) t = rest.length := by
              simp [lenOf, alook_aset_eq m t rest (v :: rest) hm]
            have h2 := hlen t
            rw [countOcc_cons, if_pos rfl] at h2
            have h3 : lenOf m t = rest.length + 1 := by simp [lenOf, hm]
            omega
          · have h1 : lenOf (aset t rest m) s = lenOf m s := by
              simp [lenOf, alook_aset_ne m t s rest (fun hc => hts hc.symm)]
            have h2 := hlen s
            rw [countOcc_cons, if_neg hts, Nat.add_zero] at h2
            omega
        exact ((ih (aset t rest m) hnd2 hlen2).cons v).trans
          (joinVals_pop m t v rest hm).symm

theorem keys_mapInsertAppend (m : ItemMap) (s v : Sym) (hnd : nodupKeys m) :
    nodupKeys (mapInsertAppend m s v) := by
  unfold mapInsertAppend
  cases hm : alook s m with
  | some vs =>
    unfold nodupKeys
    rw [keys_aset]
    exact hnd
  | none =>
    unfold nodupKeys at hnd ⊢
    rw [List.map_append]
    have hs : s ∉ m.map Prod.fst := (alook_eq_none m s).mp hm
    simp [List.nodup_append, hnd, hs]

theorem joinVals_aset_append (m : ItemMap) (s v : Sym) (vs : List Sym)
    (hm : alook s m = some vs) :
    List.Perm (joinVals (aset s (vs ++ [v]) m)) (joinVals m ++ [v]) := by
  induction m with
  | nil => simp [alook] at hm
  | cons p m ih =>
    by_cases hp : p.1 = s
    · simp only [alook, if_pos hp, Option.some.injEq] at hm
      subst hm
      simp only [aset, if_pos hp, joinVals, List.map_cons, List.flatten_cons]
      have h1 : (p.2 ++ [v]) ++ (m.map Prod.snd).flatten
          = p.2 ++ ([v] ++ (m.map Prod.snd).flatten) := by rw [List.append_assoc]
      have h2 : List.Perm (p.2 ++ ([v] ++ (m.map Prod.snd).flatten))
          (p.2 ++ ((m.map Prod.snd).flatten ++ [v])) :=
        List.Perm.append_left _ List.perm_append_comm
      have h3 : p.2 ++ ((m.map Prod.snd).flatten ++ [v])
          = (p.2 ++ (m.map Prod.snd).flatten) ++ [v] := by rw [List.append_assoc]
      rw [h1, ← h3]
      exact h2
    · simp only [alook, if_neg hp] at hm
      simp only [aset, if_neg hp, joinVals, List.map_cons, List.flatten_cons]
      have h1 := List.Perm.append_left p.2 (ih hm)
      rw [List.append_assoc]
      exact h1

theorem joinVals_mapInsertAppend (m : ItemMap) (s v : Sym) :
    List.Perm (joinVals (mapInsertAppend m s v)) (joinVals m ++ [v]) := by
  unfold mapInsertAppend
  cases hm : alook s m with
  | none =>
    simp only [joinVals, List.map_append, List.flatten_append]
    exact List.Perm.refl _
  | some vs => exact joinVals_aset_append m s v vs hm

theorem lenOf_mapInsertAppend (m : ItemMap) (t v : Sym) (s : Sym) :
    lenOf (mapInsertAppend m t v) s = lenOf m s + (if t = s then 1 else 0) := by
  cases hm : alook t m with
  | some vs =>
    have hdef : mapInsertAppend m t v = aset t (vs ++ [v]) m := by
      unfold mapInsertAppend; rw [hm]
    rw [hdef]
    by_cases hts : t = s
    · subst hts
      simp [lenOf, alook_aset_eq m t (vs ++ [v]) vs hm, hm]
    · simp [lenOf, alook_aset_ne m t s (vs ++ [v]) (fun hc => hts hc.symm), if_neg hts]
  | none =>
    have hdef : mapInsertAppend m t v = m ++ [(t, [v])] := by
      unfold mapInsertAppend; rw [hm]
    rw [hdef]
    by_cases hts : t = s
    · subst hts
      rw [lenOf, alook_append_none m [(t, [v])] t hm]
      simp [lenOf, alook, hm]
    · by_cases hsm : (alook s m).isSome
      · rcases Option.isSome_iff_exists.mp hsm with ⟨w, hw⟩
        simp [lenOf, alook_append_some m [(t, [v])] s w hw, hw, if_neg hts]
      · have hnone : alook s m = none := Option.not_isSome_iff_eq_none.mp hsm
        rw [lenOf, alook_append_none m [(t, [v])] s hnone]
        simp [lenOf, alook, hnone, if_neg hts, fun h : t = s => hts h]

theorem build_item_map_eq_foldIns (orig shuf : List Sym) :
    build_item_map orig shuf = foldIns [] (orig.zip shuf) := rfl

theorem nodupKeys_foldIns (pairs : List (Sym × Sym)) : ∀ m : ItemMap,
    nodupKeys m → nodupKeys (foldIns m pairs) := by
  induction pairs with
  | nil => intro m h; exact h
  | cons p ps ih =>
    intro m h
    exact ih (mapInsertAppend m p.1 p.2) (keys_mapInsertAppend m p.1 p.2 h)

theorem joinVals_foldIns (pairs : List (Sym × Sym)) : ∀ m : ItemMap,
    List.Perm (joinVals (foldIns m pairs)) (joinVals m ++ pairs.map Prod.snd) := by
  induction pairs with
  | nil => intro m; simp [foldIns]
  | cons p ps ih =>
    intro m
    have h1 : foldIns m (p :: ps) = foldIns (mapInsertAppend m p.1 p.2) ps := rfl
    rw [h1]
    refine (ih (mapInsertAppend m p.1 p.2)).trans ?_
    have h2 := List.Perm.append_right (ps.map Prod.snd) (joinVals_mapInsertAppend m p.1 p.2)
    refine h2.trans ?_
    simp [List.append_assoc]

theorem lenOf_foldIns (pairs : List (Sym × Sym)) : ∀ (m : ItemMap) (s : Sym),
    lenOf (foldIns m pairs) s = lenOf m s + countOcc s (pairs.map Prod.fst) := by
  induction pairs with
  | nil => intro m s; simp [foldIns, countOcc]
  | cons p ps ih =>
    intro m s
    have h1 : foldIns m (p :: ps) = foldIns (mapInsertAppend m p.1 p.2) ps := rfl
    rw [h1, ih (mapInsertAppend m p.1 p.2) s, lenOf_mapInsertAppend,
      List.map_cons, countOcc_cons]
    omega

theorem nodupKeys_build_item_map (orig shuf : List Sym) :
    nodupKeys (build_item_map orig shuf) :=
  nodupKeys_foldIns (orig.zip shuf) [] (by simp [nodupKeys])

theorem joinVals_build_item_map (orig shuf : List Sym) (hlen : orig.length = shuf.length) :
    List.Perm (joinVals (build_item_map orig shuf)) shuf := by
  rw [build_item_map_eq_foldIns]
  refine (joinVals_foldIns (orig.zip shuf) []).trans ?_
  rw [List.map_snd_zip orig shuf (le_of_eq hlen.symm)]
  simp [joinVals]

theorem lenOf_build_item_map (orig shuf : List Sym) (hlen : orig.length = shuf.length)
    (s : Sym) : lenOf (build_item_map orig shuf) s = countOcc s orig := by
  rw [build_item_map_eq_foldIns, lenOf_foldIns]
  rw [List.map_fst_zip orig shuf (le_of_eq hlen)]
  simp [lenOf, alook]

/-- Pointwise sublists flatten to a sublist. -/
theorem flatten_sublist {α β : Type} (l : List β) (f g : β → List α)
    (h : ∀ x ∈ l, List.Sublist (f x) (g x)) :
    List.Sublist ((l.map f).flatten) ((l.map g).flatten) := by
  induction l with
  | nil => simp
  | cons x xs ih =>
    simp only [List.map_cons, List.flatten_cons]
    exact List.Sublist.append (h x (List.mem_cons_self x xs))
      (ih (fun y hy => h y (List.mem_cons_of_mem x hy)))

theorem gather_line_sublist (pool : List Sym) (l : Line) :
    List.Sublist (gather_line pool l) (item_matches l) := by
  unfold gather_line
  by_cases hf : forbidden_line l
  · simp [hf]
  · simp only [hf, ite_false]
    exact List.filter_sublist _

/-- The gathered occurrences are a sublist of all occurrences the
application phase visits (gathering filters lines and pool membership,
application does not). -/
theorem gather_run_sublist (pool : List Sym) (files : List FileC) :
    List.Sublist (gather_run pool files) (all_item_matches files) := by
  unfold gather_run all_item_matches
  refine flatten_sublist files _ _ (fun f _ => ?_)
  unfold gather_file
  exact flatten_sublist f _ _ (fun l _ => gather_line_sublist pool l)

theorem countOcc_mono {L₁ L₂ : List Sym} (h : List.Sublist L₁ L₂) (s : Sym) :
    countOcc s L₁ ≤ countOcc s L₂ :=
  List.Sublist.countP_le _ h

theorem eligibleLine_marker (b : Bool) (l : Line)
    (h : (hasStartMarker l || hasEndMarker l) = true) : eligibleLine b l = false := by
  by_cases hs : hasStartMarker l
  · simp [eligibleLine, hs]
  · have he : hasEndMarker l = true := by
      rcases Bool.or_eq_true_iff.mp h with h1 | h1
      · exact absurd h1 hs
      · exact h1
    simp [eligibleLine, toggleFlag, hs, he]

/-- Positional characterization of the marked-sections loop: line `i` of
the output is the substitution of line `i` of the input (at the state
reached after the earlier lines) when the toggling makes that line
eligible, and is the input line unchanged otherwise. -/
theorem region_pass_get {σ : Type} (sub : σ → Line → Line × σ) :
    ∀ (lines : List Line) (b : Bool) (st : σ) (i : Nat),
    ((region_pass sub b st lines).1)[i]? = (lines[i]?).map (fun l =>
      if eligibleAt b lines i then (sub (region_pass sub b st (lines.take i)).2 l).1
      else l) := by
  intro lines
  induction lines with
  | nil => intro b st i; simp [region_pass]
  | cons l ls ih =>
    intro b st i
    have hcons : region_pass sub b st (l :: ls) =
        (((if toggleFlag b l && !(hasStartMarker l) then sub st l else (l, st)).1 ::
            (region_pass sub (toggleFlag b l)
              (if toggleFlag b l && !(hasStartMarker l) then sub st l else (l, st)).2 ls).1),
          (region_pass sub (toggleFlag b l)
            (if toggleFlag b l && !(hasStartMarker l) then sub st l else (l, st)).2 ls).2) :=
      rfl
    cases i with
    | zero =>
      rw [hcons]
      have helig : eligibleAt b (l :: ls) 0 = eligibleLine b l := by
        simp [eligibleAt, flagsAfter]
      have hst : (region_pass sub b st ((l :: ls).take 0)).2 = st := rfl
      simp only [List.getElem?_cons_zero, Option.map_some', helig, hst,
        eligibleLine]
      by_cases he : (toggleFlag b l && !(hasStartMarker l)) = true
      · rw [if_pos he, if_pos he]
      · rw [if_neg he, if_neg he]
    | succ i =>
      rw [hcons]
      have helig : eligibleAt b (l :: ls) (i + 1) = eligibleAt (toggleFlag b l) ls i := by
        unfold eligibleAt
        rw [List.getElem?_cons_succ]
        cases ls[i]? with
        | none => rfl
        | some l2 =>
          have hfl : flagsAfter b ((l :: ls).take (i + 1))
              = flagsAfter (toggleFlag b l) (ls.take i) := by
            rw [List.take_succ_cons]; rfl
          rw [hfl]
      have hst : (region_pass sub b st ((l :: ls).take (i + 1))).2
          = (region_pass sub (toggleFlag b l)
              (if toggleFlag b l && !(hasStartMarker l) then sub st l else (l, st)).2
              (ls.take i)).2 := by
        rw [List.take_succ_cons]; rfl
      simp only [List.getElem?_cons_succ]
      rw [ih (toggleFlag b l)
        (if toggleFlag b l && !(hasStartMarker l) then sub st l else (l, st)).2 i,
        helig, hst]

/-- Positions holding a symbol whose substitution is state-independent
keep one fixed value through a stateful map. -/
theorem mapSt_get_of_const {σ α β : Type} (f : σ → α → β × σ) (a : α) (y : β)
    (hf : ∀ st, (f st a).1 = y) :
    ∀ (as : List α) (st : σ) (i : Nat), as[i]? = some a →
    ((mapSt f st as).1)[i]? = some y := by
  intro as
  induction as with
  | nil => intro st i h; simp at h
  | cons x xs ih =>
    intro st i h
    cases i with
    | zero =>
      simp only [List.getElem?_cons_zero, Option.some.injEq] at h
      subst h
      simp [mapSt, hf st]
    | succ i =>
      simp only [List.getElem?_cons_succ] at h
      simp only [mapSt, List.getElem?_cons_succ]
      exact ih (f st x).2 i h

theorem mapSt_forall₂ {σ α β : Type} (f : σ → α → β × σ) (R : α → β → Prop)
    (hR : ∀ st a, R a (f st a).1) :
    ∀ (as : List α) (st : σ), List.Forall₂ R as (mapSt f st as).1 := by
  intro as
  induction as with
  | nil => intro st; exact List.Forall₂.nil
  | cons x xs ih =>
    intro st
    exact List.Forall₂.cons (hR st x) (ih (f st x).2)

theorem region_pass_forall₂ {σ : Type} (sub : σ → Line → Line × σ)
    (R : Line → Line → Prop) (hid : ∀ l, R l l) (hsub : ∀ st l, R l (sub st l).1) :
    ∀ (lines : List Line) (b : Bool) (st : σ),
    List.Forall₂ R lines (region_pass sub b st lines).1 := by
  intro lines
  induction lines with
  | nil => intro b st; exact List.Forall₂.nil
  | cons l ls ih =>
    intro b st
    have hcons : region_pass sub b st (l :: ls) =
        (((if toggleFlag b l && !(hasStartMarker l) then sub st l else (l, st)).1 ::
            (region_pass sub (toggleFlag b l)
              (if toggleFlag b l && !(hasStartMarker l) then sub st l else (l, st)).2 ls).1),
          (region_pass sub (toggleFlag b l)
            (if toggleFlag b l && !(hasStartMarker l) then sub st l else (l, st)).2 ls).2) :=
      rfl
    rw [hcons]
    refine List.Forall₂.cons ?_ (ih _ _)
    by_cases he : (toggleFlag b l && !(hasStartMarker l)) = true
    · rw [if_pos he]
      exact hsub st l
    · rw [if_neg he]
      exact hid l

theorem randomize_species_content_forall₂ {σ : Type} (sub : σ → Line → Line × σ)
    (R : Line → Line → Prop) (hid : ∀ l, R l l) (hsub : ∀ st l, R l (sub st l).1)
    (lines : List Line) (st : σ) :
    List.Forall₂ R lines (randomize_species_content sub st lines).1 := by
  unfold randomize_species_content
  by_cases hm : lines.any hasStartMarker
  · rw [if_pos hm]
    exact region_pass_forall₂ sub R hid hsub lines false st
  · rw [if_neg hm]
    exact mapSt_forall₂ sub R hsub lines st

theorem randomize_species_run_forall₂ {σ : Type} (sub : σ → Line → Line × σ)
    (R : Line → Line → Prop) (hid : ∀ l, R l l) (hsub : ∀ st l, R l (sub st l).1) :
    ∀ (files : List (Option FileC)) (st : σ),
    List.Forall₂ (optFileRel R) files (randomize_species_run sub st files).1 := by
  intro files
  induction files with
  | nil => intro st; exact List.Forall₂.nil
  | cons f fs ih =>
    intro st
    refine List.Forall₂.cons ?_ (ih _)
    cases f with
    | none => rfl
    | some lines =>
      exact ⟨(randomize_species_content sub st lines).1, rfl,
        randomize_species_content_forall₂ sub R hid hsub lines st⟩

theorem keys_starter_map_go (rng : Nat → Nat) (pools : List (Sym × List Sym)) :
    ∀ (starters : List Sym) (k : Nat),
    (starter_map_go rng pools starters k).1.map Prod.fst = starters := by
  intro starters
  induction starters with
  | nil => intro k; rfl
  | cons t ts ih =>
    intro k
    cases hpl : alook t pools with
    | some p =>
      by_cases hpe : p.isEmpty
      · simp [starter_map_go, hpl, hpe, ih]
      · simp [starter_map_go, hpl, hpe, ih]
    | none => simp [starter_map_go, hpl, ih]

theorem starter_map_go_lookup (rng : Nat → Nat) (pools : List (Sym × List Sym)) :
    ∀ (starters : List Sym) (k : Nat) (s : Sym), starters.Nodup → s ∈ starters →
    (alook s pools = none ∨ alook s pools = some []) →
    alook s (starter_map_go rng pools starters k).1 = some s := by
  intro starters
  induction starters with
  | nil => intro k s _ h; simp at h
  | cons t ts ih =>
    intro k s hnd hmem hpool
    rcases List.mem_cons.mp hmem with h | h
    · subst h
      rcases hpool with hp | hp
      · simp [starter_map_go, hp, alook]
      · simp [starter_map_go, hp, alook, List.isEmpty_nil]
    · have hts : t ≠ s := by
        intro hc
        exact (List.nodup_cons.mp hnd).1 (hc ▸ h)
      have hnd2 := (List.nodup_cons.mp hnd).2
      cases hpl : alook t pools with
      | some p =>
        by_cases hpe : p.isEmpty
        · simp only [starter_map_go, hpl, hpe, ite_true, alook, if_neg hts]
          exact ih k s hnd2 h hpool
        · simp only [starter_map_go, hpl, hpe, ite_false, alook, if_neg hts]
          exact ih (k + 1) s hnd2 h hpool
      | none =>
        simp only [starter_map_go, hpl, alook, if_neg hts]
        exact ih k s hnd2 h hpool

theorem alook_map_pool_entry (full : List (Sym × Int)) (T : Int) :
    ∀ (l : List (Sym × Int)) (a : Sym) (sa : Int), alook a l = some sa →
    alook a (l.map (fun p =>
        (p.1, (full.filter (fun q => decide (|p.2 - q.2| ≤ T))).map Prod.fst)))
      = some ((full.filter (fun q => decide (|sa - q.2| ≤ T))).map Prod.fst) := by
  intro l
  induction l with
  | nil => intro a sa h; simp [alook] at h
  | cons p ps ih =>
    intro a sa h
    by_cases hp : p.1 = a
    · simp only [alook, if_pos hp, Option.some.injEq] at h
      simp only [List.map_cons, alook, if_pos hp, Option.some.injEq]
      rw [h]
    · simp only [alook, if_neg hp] at h
      simp only [List.map_cons, alook, if_neg hp]
      exact ih a sa h

/-- The pool stored under `a` is the filter of the whole BST map by the
tolerance window around `a`'s score. -/
theorem alook_build_bst_swap_pools (bst_map : List (Sym × Int)) (T : Int) (a : Sym)
    (sa : Int) (ha : alook a bst_map = some sa) :
    alook a (build_bst_swap_pools bst_map T)
      = some ((bst_map.filter (fun q => decide (|sa - q.2| ≤ T))).map Prod.fst) := by
  unfold build_bst_swap_pools
  exact alook_map_pool_entry bst_map T bst_map a sa ha

theorem mem_bst_pool_iff (bst_map : List (Sym × Int)) (T : Int)
    (hnd : nodupKeys bst_map) (a b : Sym) (sa sb : Int)
    (ha : alook a bst_map = some sa) (hb : alook b bst_map = some sb) :
    b ∈ ((alook a (build_bst_swap_pools bst_map T)).getD []) ↔ |sa - sb| ≤ T := by
  rw [alook_build_bst_swap_pools bst_map T a sa ha]
  simp only [Option.getD_some, List.mem_map, List.mem_filter]
  constructor
  · rintro ⟨q, ⟨hqm, hqT⟩, hqb⟩
    have hq : (b, q.2) ∈ bst_map := by
      have : q = (b, q.2) := by
        cases q with
        | mk x y =>
          simp only at hqb
          rw [hqb]
      rw [← this]
      exact hqm
    have hlq : alook b bst_map = some q.2 := alook_nodup_mem bst_map b q.2 hnd hq
    rw [hb] at hlq
    have : q.2 = sb := by injection hlq.symm
    rw [← this]
    exact of_decide_eq_true hqT
  · intro hT
    exact ⟨(b, sb), ⟨alook_some_mem bst_map b sb hb, decide_eq_true hT⟩, rfl⟩

/-! ## Claim theorems -/

/-- C10: in `apply_item_shuffle`, an `ITEM_` occurrence is replaced only
when its symbol is a key of the shuffle map with a non-empty remaining
list; each replacement consumes exactly one value from the front of that
symbol's list (per-symbol FIFO order); once the list is exhausted — or
the symbol was never collected — every further occurrence passes through
unchanged rather than raising an error.  The first conjunct
characterizes the values received by the occurrences of `s` (queue
prefix in order, then `s` itself once exhausted); the second identifies
the map threaded through the real per-file application loop with the
flat fold of `line_replacer`. -/
theorem C10_apply_item_shuffle_fifo (m : ItemMap) (L : List Sym) (s : Sym)
    (files : List FileC) :
    (outputsAt s m L =
      ((alook s m).getD []).take (countOcc s L) ++
        List.replicate (countOcc s L - ((alook s m).getD []).length) s) ∧
    (apply_item_shuffle_run m files).2 = foldStep m (all_item_matches files) :=
  ⟨outputsAt_eq s L m, apply_run_state m files⟩

/-- C1: the item shuffle is a bijection over the collected occurrences:
for any shuffled pool that is a permutation of the gathered occurrences
(which `random.shuffle` always produces), after the application loop
every queue of the item map is fully consumed, and the multiset of
replacement values written equals the multiset of values collected in
the gather phase. -/
theorem C1_item_shuffle_bijection (pool : List Sym) (files : List FileC)
    (shuf : List Sym) (hperm : List.Perm shuf (gather_run pool files)) :
    (∀ p ∈ (apply_item_shuffle_run (build_item_map (gather_run pool files) shuf)
        files).2, p.2 = ([] : List Sym)) ∧
    List.Perm
      (writesFlat (build_item_map (gather_run pool files) shuf) (all_item_matches files))
      (gather_run pool files) := by
  have hlen : (gather_run pool files).length = shuf.length := hperm.length_eq.symm
  have hnd : nodupKeys (build_item_map (gather_run pool files) shuf) :=
    nodupKeys_build_item_map _ _
  have hbound : ∀ s, lenOf (build_item_map (gather_run pool files) shuf) s
      ≤ countOcc s (all_item_matches files) := by
    intro s
    rw [lenOf_build_item_map _ _ hlen s]
    exact countOcc_mono (gather_run_sublist pool files) s
  constructor
  · intro p hp
    rw [apply_run_state] at hp
    have hndf : nodupKeys (foldStep (build_item_map (gather_run pool files) shuf)
        (all_item_matches files)) := by
      unfold nodupKeys
      rw [keys_foldStep]
      exact hnd
    have hmem : (p.1, p.2) ∈ foldStep (build_item_map (gather_run pool files) shuf)
        (all_item_matches files) := by
      cases p
      exact hp
    have hlook := alook_nodup_mem _ p.1 p.2 hndf hmem
    have hlen0 : lenOf (foldStep (build_item_map (gather_run pool files) shuf)
        (all_item_matches files)) p.1 = 0 := by
      rw [foldStep_len]
      have := hbound p.1
      omega
    rw [lenOf, hlook] at hlen0
    simpa using hlen0
  · exact (writesFlat_perm (all_item_matches files) _ hnd hbound).trans
      ((joinVals_build_item_map _ _ hlen).trans hperm)

theorem C1_witness :
    List.Perm [("ITEM_B").data, ("ITEM_A").data]
      (gather_run [("ITEM_A").data, ("ITEM_B").data]
        [[("giveitem ITEM_A").data, ("giveitem ITEM_B").data]]) ∧
    ((∀ p ∈ (apply_item_shuffle_run
        (build_item_map
          (gather_run [("ITEM_A").data, ("ITEM_B").data]
            [[("giveitem ITEM_A").data, ("giveitem ITEM_B").data]])
          [("ITEM_B").data, ("ITEM_A").data])
        [[("giveitem ITEM_A").data, ("giveitem ITEM_B").data]]).2,
        p.2 = ([] : List Sym)) ∧
      List.Perm
        (writesFlat
          (build_item_map
            (gather_run [("ITEM_A").data, ("ITEM_B").data]
              [[("giveitem ITEM_A").data, ("giveitem ITEM_B").data]])
            [("ITEM_B").data, ("ITEM_A").data])
          (all_item_matches [[("giveitem ITEM_A").data, ("giveitem ITEM_B").data]]))
        (gather_run [("ITEM_A").data, ("ITEM_B").data]
          [[("giveitem ITEM_A").data, ("giveitem ITEM_B").data]])) :=
  ⟨by decide,
   C1_item_shuffle_bijection [("ITEM_A").data, ("ITEM_B").data]
     [[("giveitem ITEM_A").data, ("giveitem ITEM_B").data]]
     [("ITEM_B").data, ("ITEM_A").data] (by decide)⟩

/-- C2 counterexample: a line carrying the forbidden command
`addhiddenitem` is excluded from gathering, yet the application phase
rewrites its `ITEM_` occurrence anyway (the forbidden-command check is
absent from `apply_item_shuffle`): with the gathered occurrences
`[ITEM_A, ITEM_B]` and the (valid) shuffle outcome `[ITEM_B, ITEM_A]`,
the forbidden first line comes out as `addhiddenitem ITEM_B`, not
byte-identical to its input. -/
theorem C2_counterexample :
    forbidden_line (("addhiddenitem ITEM_A").data) = true ∧
    gather_run [("ITEM_A").data, ("ITEM_B").data]
        [[("addhiddenitem ITEM_A").data, ("giveitem ITEM_A").data,
          ("giveitem ITEM_B").data]]
      = [("ITEM_A").data, ("ITEM_B").data] ∧
    List.Perm [("ITEM_B").data, ("ITEM_A").data]
      (gather_run [("ITEM_A").data, ("ITEM_B").data]
        [[("addhiddenitem ITEM_A").data, ("giveitem ITEM_A").data,
          ("giveitem ITEM_B").data]]) ∧
    (apply_item_shuffle_run
        (build_item_map
          (gather_run [("ITEM_A").data, ("ITEM_B").data]
            [[("addhiddenitem ITEM_A").data, ("giveitem ITEM_A").data,
              ("giveitem ITEM_B").data]])
          [("ITEM_B").data, ("ITEM_A").data])
        [[("addhiddenitem ITEM_A").data, ("giveitem ITEM_A").data,
          ("giveitem ITEM_B").data]]).1
      = [[("addhiddenitem ITEM_B").data, ("giveitem ITEM_A").data,
          ("giveitem ITEM_A").data]] := by
  refine ⟨by decide, by decide, by decide, by decide⟩

theorem mapSt_id_fix {σ α : Type} (f : σ → α → α × σ) :
    ∀ (as : List α) (st : σ), (∀ a ∈ as, f st a = (a, st)) →
    (mapSt f st as).1 = as := by
  intro as
  induction as with
  | nil => intro st _; rfl
  | cons x xs ih =>
    intro st hf
    have hx := hf x (List.mem_cons_self x xs)
    simp only [mapSt, hx]
    exact congrArg (x :: ·) (ih st (fun a ha => hf a (List.mem_cons_of_mem x ha)))

/-- C2 amended: a line containing a configured forbidden command token
(case-insensitive substring) contributes no `ITEM_` occurrence to the
gather phase; the application phase, however, performs no
forbidden-command check, so an occurrence on such a line is guaranteed
byte-identical only when its symbol has no remaining values in the
shuffle map at that point (in particular whenever the symbol was never
collected). -/
theorem C2_forbidden_line_scope (pool : List Sym) (l : Line)
    (h : forbidden_line l = true) :
    gather_line pool l = [] ∧
    (∀ m : ItemMap, (∀ s ∈ item_matches l, ((alook s m).getD []) = ([] : List Sym)) →
      (subSt isItemMatch line_replacer m l).1 = l) := by
  constructor
  · unfold gather_line
    rw [if_pos h]
  · intro m hm
    show ((subChunksSt isItemMatch line_replacer m l).1).flatten = l
    unfold subChunksSt
    rw [mapSt_id_fix _ (chunks l) m ?_, chunks_join]
    intro g hg
    by_cases hmatch : isItemMatch g
    · have hmem : g ∈ item_matches l := List.mem_filter.mpr ⟨hg, hmatch⟩
      have := hm g hmem
      rw [if_pos hmatch]
      unfold line_replacer
      cases hal : alook g m with
      | none => rfl
      | some vs =>
        cases vs with
        | nil => rfl
        | cons v rest =>
          rw [hal] at this
          simp at this
    · rw [if_neg hmatch]

theorem C2_witness :
    forbidden_line (("addhiddenitem ITEM_BERRY").data) = true ∧
    (gather_line [("ITEM_BERRY").data] (("addhiddenitem ITEM_BERRY").data) = [] ∧
      (∀ m : ItemMap, (∀ s ∈ item_matches (("addhiddenitem ITEM_BERRY").data),
          ((alook s m).getD []) = ([] : List Sym)) →
        (subSt isItemMatch line_replacer m (("addhiddenitem ITEM_BERRY").data)).1
          = ("addhiddenitem ITEM_BERRY").data)) :=
  ⟨by decide,
   C2_forbidden_line_scope [("ITEM_BERRY").data] (("addhiddenitem ITEM_BERRY").data)
     (by decide)⟩

/-- C8 counterexample: the catalog loader of the standalone script
(`randomizer.py`, `get_all_species`) performs no exception handling, so
a missing species header propagates `FileNotFoundError` out of the
loader instead of signalling an empty catalog. -/
theorem C8_counterexample : get_all_species_v1 none = Except.error () := rfl

/-- C8 amended: the loaders of `randomizer/randomizer.py`
(`get_all_species`, `get_all_abilities`) catch a missing source file and
return an empty catalog with a diagnostic, but `get_all_species` of the
standalone `randomizer.py` does not catch the error: the exception
propagates and aborts the run. -/
theorem C8_catalog_missing_behaviour :
    get_all_species none = ([] : List Sym) ∧
    get_all_abilities none = ([] : List Sym) ∧
    get_all_species_v1 none = Except.error () :=
  ⟨rfl, rfl, rfl⟩

/-- C9 counterexample: a missing file in the item gather loop aborts the
item shuffle with an uncaught exception (no handler wraps the `open`
inside that loop), so not every missing target file is skipped. -/
theorem C9_counterexample :
    item_gather_loop [("ITEM_POTION").data]
      [some [("giveitem ITEM_POTION").data], none] = Except.error () := rfl

/-- C9 amended: a missing target file is reported and skipped — and
processing continues with the next file — in
`randomize_species_in_file`, `randomize_abilities` and
`apply_item_shuffle`; the item gather loop of `__main__`, however, opens
files without a handler, so a missing file at any position there aborts
the gather (and with it the item shuffle) instead of being skipped. -/
theorem C9_missing_file_handling :
    (∀ (σ : Type) (sub : σ → Line → Line × σ) (st : σ),
      randomize_species_in_file sub st none = (none, st)) ∧
    (∀ (rng : Nat → Nat) (pool : List Sym) (k : Nat),
      randomize_abilities_file rng pool k none = (none, k)) ∧
    (∀ m : ItemMap, apply_item_shuffle_file m none = (none, m)) ∧
    (∀ (σ : Type) (sub : σ → Line → Line × σ) (st : σ) (files : List (Option FileC)),
      (randomize_species_run sub st (none :: files)).1
        = none :: (randomize_species_run sub st files).1) ∧
    (∀ (pool : List Sym) (fs₁ fs₂ : List (Option FileC)),
      item_gather_loop pool (fs₁ ++ none :: fs₂) = Except.error ()) := by
  refine ⟨fun σ sub st => rfl, fun rng pool k => rfl, fun m => rfl,
    fun σ sub st files => rfl, ?_⟩
  intro pool fs₁ fs₂
  induction fs₁ with
  | nil => rfl
  | cons f fs ih =>
    cases f with
    | none => rfl
    | some c =>
      show (item_gather_loop pool (fs ++ none :: fs₂)).map
        (fun r => gather_file pool c ++ r) = Except.error ()
      rw [ih]
      rfl

/-- C3: the pinned (starter) replacement is selected exactly once per
run, before any file is processed — here: `build_starter_map` is
computed first and the resulting map is a fixed parameter of every file
pass.  (1) When a starter's similarity pool is absent or empty the map
falls back to identity, with no error; (2) the resolver sends a pinned
symbol to its mapped value at every random-counter state, consuming no
randomness; (3) every processed file line is either untouched or
rewritten by that same resolver; (4) hence every eligible occurrence of
a pinned symbol, in any file and at any state, becomes the same single
value. -/
theorem C3_pinned_starter_consistency (rng : Nat → Nat)
    (pools : List (Sym × List Sym)) (k0 : Nat) :
    (∀ s, s ∈ ORIGINAL_STARTERS → (alook s pools = none ∨ alook s pools = some []) →
      alook s (build_starter_map rng pools k0).1 = some s) ∧
    (∀ (sm : List (Sym × Sym)) (pls : Option (List (Sym × List Sym)))
      (fb : List Sym) (k : Nat) (s v : Sym), alook s sm = some v →
      species_replacement_logic rng sm pls fb k s = (v, k)) ∧
    (∀ (sm : List (Sym × Sym)) (pls : Option (List (Sym × List Sym)))
      (fb : List Sym) (st : Nat) (files : List (Option FileC)),
      List.Forall₂ (optFileRel (fun l l2 => l2 = l ∨ ∃ j : Nat,
          l2 = (subSpLine (species_replacement_logic rng sm pls fb) j l).1))
        files
        (randomize_species_run (subSpLine (species_replacement_logic rng sm pls fb))
          st files).1) ∧
    (∀ (sm : List (Sym × Sym)) (pls : Option (List (Sym × List Sym)))
      (fb : List Sym) (s v : Sym), alook s sm = some v → isSpeciesMatch s = true →
      ∀ (j : Nat) (l : Line) (i : Nat), (chunks l)[i]? = some s →
      ((subChunksSt isSpeciesMatch (species_replacement_logic rng sm pls fb) j l).1)[i]?
        = some v) := by
  refine ⟨?_, ?_, ?_, ?_⟩
  · intro s hs hp
    exact starter_map_go_lookup rng pools ORIGINAL_STARTERS k0 s (by decide) hs hp
  · intro sm pls fb k s v h
    unfold species_replacement_logic
    rw [h]
  · intro sm pls fb st files
    exact randomize_species_run_forall₂ _ _ (fun l => Or.inl rfl)
      (fun j l => Or.inr ⟨j, rfl⟩) files st
  · intro sm pls fb s v h hmatch j l i hi
    unfold subChunksSt
    refine mapSt_get_of_const _ s v ?_ (chunks l) j i hi
    intro st
    rw [if_pos hmatch]
    unfold species_replacement_logic
    rw [h]

theorem C3_witness :
    ((("SPECIES_BULBASAUR").data ∈ ORIGINAL_STARTERS) ∧
      alook (("SPECIES_BULBASAUR").data)
        (build_starter_map (fun _ => 0) [] 0).1 = some (("SPECIES_BULBASAUR").data)) ∧
    ((subChunksSt isSpeciesMatch
        (species_replacement_logic (fun _ => 0)
          [(("SPECIES_BULBASAUR").data, ("SPECIES_SQUIRTLE").data)] none [])
        0 (("gStarter SPECIES_BULBASAUR").data)).1)[2]?
      = some (("SPECIES_SQUIRTLE").data) :=
  ⟨⟨by decide,
    (C3_pinned_starter_consistency (fun _ => 0) [] 0).1 (("SPECIES_BULBASAUR").data)
      (by decide) (Or.inl rfl)⟩,
   (C3_pinned_starter_consistency (fun _ => 0) [] 0).2.2.2
     [(("SPECIES_BULBASAUR").data, ("SPECIES_SQUIRTLE").data)] none []
     (("SPECIES_BULBASAUR").data) (("SPECIES_SQUIRTLE").data) (by decide) (by decide)
     0 (("gStarter SPECIES_BULBASAUR").data) 2 (by decide)⟩

/-- C4: every symbol of the protected sets is identity-preserved.
Conjuncts: (1) a protected species is never a key of the starter map the
program builds (its keys are exactly the original starters); (2)-(3) the
species resolvers of both scripts send a protected non-pinned species to
itself, consuming no randomness; (4) the ability resolver sends a
protected ability to itself; (5) every chunk position holding the
protected species still holds it after a line is rewritten, at any
state; (6) every processed file line is either untouched or rewritten by
that resolver (so (5) covers the whole run, markers or not); (7) the
ability analogue of (5). -/
theorem C4_protected_identity :
    (∀ (rng : Nat → Nat) (pools : List (Sym × List Sym)) (k : Nat) (s : Sym),
      s ∈ PROTECTED_SPECIES → alook s (build_starter_map rng pools k).1 = none) ∧
    (∀ (rng : Nat → Nat) (sm : List (Sym × Sym)) (pls : Option (List (Sym × List Sym)))
      (fb : List Sym) (k : Nat) (s : Sym), s ∈ PROTECTED_SPECIES → alook s sm = none →
      species_replacement_logic rng sm pls fb k s = (s, k)) ∧
    (∀ (rng : Nat → Nat) (sl : List Sym) (sm : List (Sym × Sym)) (k : Nat) (s : Sym),
      s ∈ PROTECTED_SPECIES → alook s sm = none →
      species_replacement_logic_v1 rng sl sm k s = (s, k)) ∧
    (∀ (rng : Nat → Nat) (pool : List Sym) (k : Nat) (s : Sym),
      s ∈ PROTECTED_ABILITIES → ability_replacement_logic rng pool k s = (s, k)) ∧
    (∀ (rng : Nat → Nat) (sm : List (Sym × Sym)) (pls : Option (List (Sym × List Sym)))
      (fb : List Sym) (s : Sym), s ∈ PROTECTED_SPECIES → alook s sm = none →
      ∀ (j : Nat) (l : Line) (i : Nat), (chunks l)[i]? = some s →
      ((subChunksSt isSpeciesMatch (species_replacement_logic rng sm pls fb) j l).1)[i]?
        = some s) ∧
    (∀ (rng : Nat → Nat) (sm : List (Sym × Sym)) (pls : Option (List (Sym × List Sym)))
      (fb : List Sym) (st : Nat) (files : List (Option FileC)),
      List.Forall₂ (optFileRel (fun l l2 => l2 = l ∨ ∃ j : Nat,
          l2 = (subSpLine (species_replacement_logic rng sm pls fb) j l).1))
        files
        (randomize_species_run (subSpLine (species_replacement_logic rng sm pls fb))
          st files).1) ∧
    (∀ (rng : Nat → Nat) (pool : List Sym) (k : Nat) (s : Sym),
      s ∈ PROTECTED_ABILITIES →
      ∀ (l : Line) (i : Nat), (chunks l)[i]? = some s →
      ((subChunksSt isAbilityMatch (ability_replacement_logic rng pool) k l).1)[i]?
        = some s) := by
  refine ⟨?_, ?_, ?_, ?_, ?_, ?_, ?_⟩
  · intro rng pools k s hs
    rw [alook_eq_none]
    have hkeys : (build_starter_map rng pools k).1.map Prod.fst = ORIGINAL_STARTERS :=
      keys_starter_map_go rng pools ORIGINAL_STARTERS k
    rw [hkeys]
    simp only [PROTECTED_SPECIES, List.mem_cons, List.not_mem_nil, or_false] at hs
    rcases hs with h | h <;> subst h <;> decide
  · intro rng sm pls fb k s hs hsm
    unfold species_replacement_logic
    rw [hsm, if_pos hs]
  · intro rng sl sm k s hs hsm
    unfold species_replacement_logic_v1
    rw [hsm, if_pos hs]
  · intro rng pool k s hs
    unfold ability_replacement_logic
    rw [if_pos hs]
  · intro rng sm pls fb s hs hsm j l i hi
    unfold subChunksSt
    refine mapSt_get_of_const _ s s ?_ (chunks l) j i hi
    intro st
    by_cases hmatch : isSpeciesMatch s
    · rw [if_pos hmatch]
      unfold species_replacement_logic
      rw [hsm, if_pos hs]
    · rw [if_neg hmatch]
  · intro rng sm pls fb st files
    exact randomize_species_run_forall₂ _ _ (fun l => Or.inl rfl)
      (fun j l => Or.inr ⟨j, rfl⟩) files st
  · intro rng pool k s hs l i hi
    unfold subChunksSt
    refine mapSt_get_of_const _ s s ?_ (chunks l) k i hi
    intro st
    by_cases hmatch : isAbilityMatch s
    · rw [if_pos hmatch]
      unfold ability_replacement_logic
      rw [if_pos hs]
    · rw [if_neg hmatch]

theorem C4_witness :
    ((("SPECIES_NONE").data ∈ PROTECTED_SPECIES) ∧
      species_replacement_logic (fun _ => 0) [] none [] 5 (("SPECIES_NONE").data)
        = ((("SPECIES_NONE").data), 5)) ∧
    ((subChunksSt isSpeciesMatch (species_replacement_logic (fun _ => 0) [] none [])
        0 (("mon SPECIES_NONE").data)).1)[2]? = some (("SPECIES_NONE").data) ∧
    ability_replacement_logic (fun _ => 0) [("ABILITY_BLAZE").data] 7
        (("ABILITY_NONE").data) = ((("ABILITY_NONE").data), 7) :=
  ⟨⟨by decide,
    C4_protected_identity.2.1 (fun _ => 0) [] none [] 5 (("SPECIES_NONE").data)
      (by decide) rfl⟩,
   C4_protected_identity.2.2.2.2.1 (fun _ => 0) [] none [] (("SPECIES_NONE").data)
     (by decide) rfl 0 (("mon SPECIES_NONE").data) 2 (by decide),
   C4_protected_identity.2.2.2.1 (fun _ => 0) [("ABILITY_BLAZE").data] 7
     (("ABILITY_NONE").data) (by decide)⟩

/-- C5: for any two symbols known to the BST map, membership of one in
the other's swap pool holds exactly when their scores differ by at most
the tolerance (inclusive), and the membership relation is therefore
symmetric. -/
theorem C5_bst_pool_window_symmetric (bst_map : List (Sym × Int)) (T : Int)
    (hnd : nodupKeys bst_map) (a b : Sym) (sa sb : Int)
    (ha : alook a bst_map = some sa) (hb : alook b bst_map = some sb) :
    (b ∈ ((alook a (build_bst_swap_pools bst_map T)).getD []) ↔ |sa - sb| ≤ T) ∧
    (b ∈ ((alook a (build_bst_swap_pools bst_map T)).getD []) ↔
      a ∈ ((alook b (build_bst_swap_pools bst_map T)).getD [])) := by
  have h1 := mem_bst_pool_iff bst_map T hnd a b sa sb ha hb
  have h2 := mem_bst_pool_iff bst_map T hnd b a sb sa hb ha
  refine ⟨h1, ?_⟩
  rw [h1, h2, abs_sub_comm]

theorem C5_witness :
    nodupKeys [(("SPECIES_BULBASAUR").data, (318 : Int)),
      (("SPECIES_CHARMANDER").data, (309 : Int)),
      (("SPECIES_ONIX").data, (385 : Int))] ∧
    ((("SPECIES_CHARMANDER").data ∈
        ((alook (("SPECIES_BULBASAUR").data)
          (build_bst_swap_pools
            [(("SPECIES_BULBASAUR").data, (318 : Int)),
             (("SPECIES_CHARMANDER").data, (309 : Int)),
             (("SPECIES_ONIX").data, (385 : Int))] BST_SIMILARITY_RANGE)).getD [])
        ↔ |(318 : Int) - 309| ≤ BST_SIMILARITY_RANGE) ∧
      (("SPECIES_CHARMANDER").data ∈
        ((alook (("SPECIES_BULBASAUR").data)
          (build_bst_swap_pools
            [(("SPECIES_BULBASAUR").data, (318 : Int)),
             (("SPECIES_CHARMANDER").data, (309 : Int)),
             (("SPECIES_ONIX").data, (385 : Int))] BST_SIMILARITY_RANGE)).getD [])
        ↔ ("SPECIES_BULBASAUR").data ∈
          ((alook (("SPECIES_CHARMANDER").data)
            (build_bst_swap_pools
              [(("SPECIES_BULBASAUR").data, (318 : Int)),
               (("SPECIES_CHARMANDER").data, (309 : Int)),
               (("SPECIES_ONIX").data, (385 : Int))] BST_SIMILARITY_RANGE)).getD []))) :=
  ⟨by unfold nodupKeys; decide,
   C5_bst_pool_window_symmetric
     [(("SPECIES_BULBASAUR").data, (318 : Int)),
      (("SPECIES_CHARMANDER").data, (309 : Int)),
      (("SPECIES_ONIX").data, (385 : Int))] BST_SIMILARITY_RANGE
     (by unfold nodupKeys; decide)
     (("SPECIES_BULBASAUR").data) (("SPECIES_CHARMANDER").data) 318 309
     (by decide) (by decide)⟩

/-- C6: if no region-start marker occurs in a file, the whole file is
substituted; if one does, the marked-sections loop applies: line `i` of
the output is the input line substituted (at the threaded state) exactly
when the marker toggling makes it eligible, every line outside an active
region is byte-identical, and marker lines themselves (start or end)
always pass through unmodified. -/
theorem C6_region_scoping {σ : Type} (sub : σ → Line → Line × σ) (st : σ)
    (lines : List Line) :
    (lines.any hasStartMarker = false →
      randomize_species_content sub st lines = mapSt sub st lines) ∧
    (lines.any hasStartMarker = true →
      randomize_species_content sub st lines = region_pass sub false st lines) ∧
    (∀ i : Nat, ((region_pass sub false st lines).1)[i]? = (lines[i]?).map (fun l =>
      if eligibleAt false lines i then (sub (region_pass sub false st (lines.take i)).2 l).1
      else l)) ∧
    (∀ i : Nat, eligibleAt false lines i = false →
      ((region_pass sub false st lines).1)[i]? = lines[i]?) ∧
    (∀ (i : Nat) (l : Line), lines[i]? = some l →
      (hasStartMarker l || hasEndMarker l) = true →
      ((region_pass sub false st lines).1)[i]? = some l) := by
  have hget := region_pass_get sub lines false st
  refine ⟨?_, ?_, hget, ?_, ?_⟩
  · intro h
    unfold randomize_species_content
    rw [if_neg (by rw [h]; exact Bool.false_ne_true)]
  · intro h
    unfold randomize_species_content
    rw [if_pos h]
  · intro i h
    rw [hget i, h]
    cases lines[i]? with
    | none => rfl
    | some l => simp
  · intro i l hl hm
    have helig : eligibleAt false lines i = false := by
      unfold eligibleAt
      rw [hl]
      exact eligibleLine_marker _ l hm
    rw [hget i, helig, hl]
    simp

theorem C6_witness :
    ([("x SPECIES_A").data, ("// RANDOMIZER_START").data, ("y SPECIES_B").data,
        ("// RANDOMIZER_END").data, ("z SPECIES_C").data].any hasStartMarker = true) ∧
    eligibleAt false [("x SPECIES_A").data, ("// RANDOMIZER_START").data,
        ("y SPECIES_B").data, ("// RANDOMIZER_END").data, ("z SPECIES_C").data] 0
      = false ∧
    ((region_pass (fun (k : Nat) (_ : Line) => ((("Q").data : Line), k + 1)) false 0
        [("x SPECIES_A").data, ("// RANDOMIZER_START").data, ("y SPECIES_B").data,
         ("// RANDOMIZER_END").data, ("z SPECIES_C").data]).1)[0]?
      = some (("x SPECIES_A").data) ∧
    ((region_pass (fun (k : Nat) (_ : Line) => ((("Q").data : Line), k + 1)) false 0
        [("x SPECIES_A").data, ("// RANDOMIZER_START").data, ("y SPECIES_B").data,
         ("// RANDOMIZER_END").data, ("z SPECIES_C").data]).1)[1]?
      = some (("// RANDOMIZER_START").data) := by
  refine ⟨by decide, by decide, ?_, ?_⟩
  · have h := (C6_region_scoping (fun (k : Nat) (_ : Line) => ((("Q").data : Line), k + 1))
      0 [("x SPECIES_A").data, ("// RANDOMIZER_START").data, ("y SPECIES_B").data,
         ("// RANDOMIZER_END").data, ("z SPECIES_C").data]).2.2.2.1 0 (by decide)
    rw [h]
    decide
  · exact (C6_region_scoping (fun (k : Nat) (_ : Line) => ((("Q").data : Line), k + 1))
      0 [("x SPECIES_A").data, ("// RANDOMIZER_START").data, ("y SPECIES_B").data,
         ("// RANDOMIZER_END").data, ("z SPECIES_C").data]).2.2.2.2 1
      (("// RANDOMIZER_START").data) rfl (by decide)

/-- C7: under similarity mode (a non-empty pool table supplied), a
matched symbol that is neither pinned nor protected and has no entry in
the pool table is returned unchanged at an unchanged random counter, for
every flat fallback pool — the fallback pool is never consulted. -/
theorem C7_similarity_absent_unchanged (rng : Nat → Nat)
    (starter_map : List (Sym × Sym)) (pools : List (Sym × List Sym))
    (fallback_pool : List Sym) (k : Nat) (s : Sym)
    (htruthy : optTruthy (some pools) = true)
    (hsm : alook s starter_map = none) (hprot : s ∉ PROTECTED_SPECIES)
    (habs : alook s pools = none) :
    species_replacement_logic rng starter_map (some pools) fallback_pool k s = (s, k) := by
  unfold species_replacement_logic
  rw [hsm, if_neg hprot, if_pos htruthy]
  simp only [Option.getD_some, habs]

theorem C7_witness :
    optTruthy (some [(("SPECIES_MEW").data, [("SPECIES_MEW").data])]) = true ∧
    (("SPECIES_DEOXYS").data ∉ PROTECTED_SPECIES) ∧
    species_replacement_logic (fun _ => 0) []
      (some [(("SPECIES_MEW").data, [("SPECIES_MEW").data])])
      [("SPECIES_RATTATA").data] 3 (("SPECIES_DEOXYS").data)
      = ((("SPECIES_DEOXYS").data), 3) :=
  ⟨by decide, by decide,
   C7_similarity_absent_unchanged (fun _ => 0) []
     [(("SPECIES_MEW").data, [("SPECIES_MEW").data])] [("SPECIES_RATTATA").data] 3
     (("SPECIES_DEOXYS").data) (by decide) rfl (by decide) (by decide)⟩

end Randomizer
